import Mathlib

/-!
Shallow embedding of `typedb-graph-utils` (files
`src/python/typedb_graph_utils/data_constraint.py` and
`src/python/typedb_graph_utils/networkx_builder.py`) together with proofs
about its vertex-identity, constraint-resolution and graph-emission layers.

External collaborators (the `typedb` driver types `Concept`, `Pipeline`,
`ConceptRow`, the `typedb.analyze` abstract constraint tree, and the
`networkx.MultiDiGraph` operations actually used) are modelled from the
spec's external-interface section; everything else is translated directly
from the Python source.
-/

namespace TypeDBGraphUtils

/-- A concrete concept from the `typedb.driver`: carries an identity and a
label (`get_label` is the only accessor the builder uses). Equality is the
driver's value equality. -/
structure Concept where
  cid : Nat
  clabel : String
deriving DecidableEq, Repr

def Concept.get_label (c : Concept) : String := c.clabel

/-- An abstract query-variable reference from `typedb.analyze`. -/
abbrev Variable := Nat

/-- `typedb.analyze.Pipeline`: `get_variable_name(variable) -> name | absent`. -/
structure Pipeline where
  get_variable_name : Variable → Option String

/-- `typedb.driver.ConceptRow`: `get(variableName) -> boundValue | absent`. -/
structure ConceptRow where
  get : String → Option Concept

/-- Python f-string interpolation of an `Optional[str]`: `None` renders as
the four-character string `"None"`. -/
def pyFormatOptStr : Option String → String
  | none => "None"
  | some s => s

/-- `DataVertex` (data_constraint.py): the closed set of graph-node kinds.
`conceptVertex` wraps the value handed to the Python `ConceptVertex`
constructor, which at the unbound-variable call site can be Python `None`,
hence the `Option Concept` field.  The synthetic vertices store the
resolver outputs, which are `Optional[DataVertex]` values. -/
inductive DataVertex where
  | conceptVertex (concept : Option Concept)
  | namedRoleVertex (variableRef : Variable) (name : String)
  | functionCallVertex (name : String) (assigned : List (Option DataVertex))
      (arguments : List (Option DataVertex))
  | expressionVertex (text : String) (assigned : Option DataVertex)
      (arguments : List (Option DataVertex))

/-- A Python reference that is either a `DataVertex` or `None`. -/
abbrev PyNode := Option DataVertex

mutual

/-- Python `==` on `DataVertex` instances, following each class's `__eq__`:
`ConceptVertex` compares the wrapped concepts, `NamedRoleVertex` compares
only the bound variables (the display name is excluded), the synthetic
vertices compare their defining tuples elementwise, and instances of
different classes are never equal. -/
def pyEq : DataVertex → DataVertex → Bool
  | .conceptVertex a, .conceptVertex b => a == b
  | .namedRoleVertex v1 _, .namedRoleVertex v2 _ => v1 == v2
  | .functionCallVertex n1 xs1 ys1, .functionCallVertex n2 xs2 ys2 =>
      n1 == n2 && pyEqList xs1 xs2 && pyEqList ys1 ys2
  | .expressionVertex t1 a1 ys1, .expressionVertex t2 a2 ys2 =>
      t1 == t2 && pyEqOpt a1 a2 && pyEqList ys1 ys2
  | _, _ => false

/-- Python `==` on possibly-`None` vertex references. -/
def pyEqOpt : PyNode → PyNode → Bool
  | none, none => true
  | some a, some b => pyEq a b
  | _, _ => false

/-- Python `==` on tuples of possibly-`None` vertex references. -/
def pyEqList : List PyNode → List PyNode → Bool
  | [], [] => true
  | a :: xs, b :: ys => pyEqOpt a b && pyEqList xs ys
  | _, _ => false

end

/-- Model of the driver's `hash` on a possibly-`None` concept. -/
def hashConceptOpt : Option Concept → Nat
  | none => 0
  | some c => c.cid + 1

/-- Model of Python `hash` on a string. -/
def hashStr (s : String) : Nat :=
  s.toList.foldl (fun h c => h * 31 + c.toNat) 7

/-- Injective pairing used to model Python's tuple hashing. -/
def pairHash (a b : Nat) : Nat := (a + b) * (a + b + 1) + 2 * b

mutual

/-- Python `hash` on `DataVertex` instances, following each class's
`__hash__`: `ConceptVertex` hashes the wrapped concept, `NamedRoleVertex`
hashes only the bound variable (the display name is excluded), and the
synthetic vertices hash their defining tuples. -/
def pyHash : DataVertex → Nat
  | .conceptVertex c => hashConceptOpt c
  | .namedRoleVertex v _ => v
  | .functionCallVertex n xs ys =>
      pairHash (hashStr n) (pairHash (pyHashList xs) (pyHashList ys))
  | .expressionVertex t a ys =>
      pairHash (hashStr t) (pairHash (pyHashOpt a) (pyHashList ys))

/-- Python `hash` on a possibly-`None` vertex reference. -/
def pyHashOpt : PyNode → Nat
  | none => 0
  | some a => pyHash a + 1

/-- Python `hash` on a tuple of possibly-`None` vertex references. -/
def pyHashList : List PyNode → Nat
  | [] => 0
  | x :: xs => pairHash (pyHashOpt x) (pyHashList xs)

end

/-- `typedb.common.enums.ConstraintExactness`. -/
inductive ConstraintExactness where
  | Exact
  | Inferred
deriving DecidableEq, Repr

/-- `typedb.common.enums.Comparator`: opaque metadata copied through. -/
abbrev Comparator := String

/-- `typedb.common.enums.Kind`: opaque metadata copied through. -/
abbrev KindEnum := String

/-- `typedb.analyze.ConstraintVertex`: an abstract constraint endpoint,
one of a type/schema label, a query-variable reference, a literal value, a
named-role reference, or some other kind (resolved to absent). -/
inductive ConstraintVertex where
  | label (c : Concept)
  | varRef (v : Variable)
  | value (c : Concept)
  | namedRole (v : Variable) (name : String)
  | other
deriving DecidableEq, Repr

/-- `ConstraintVertex.is_label()`. -/
def ConstraintVertex.is_label : ConstraintVertex → Bool
  | .label _ => true
  | _ => false

/-- `ConstraintVertex.as_variable()`: raises on a non-variable vertex. -/
def ConstraintVertex.as_variable : ConstraintVertex → Except String Variable
  | .varRef v => .ok v
  | _ => .error "Bad cast. Expected: a variable vertex"

/-- `typedb.analyze.Constraint`: the abstract constraint tree, a closed set
of 18 recognized kinds (15 drawable plus or/not/try); `unknown` stands for
any object of a constraint class outside that closed set, carrying the
kind name that Python's `type(constraint)` would report. -/
inductive Constraint where
  | isa (instance_ type_ : ConstraintVertex) (exactness : ConstraintExactness)
  | has (owner attribute_ : ConstraintVertex) (exactness : ConstraintExactness)
  | links (relation player role : ConstraintVertex) (exactness : ConstraintExactness)
  | sub (subtype supertype : ConstraintVertex) (exactness : ConstraintExactness)
  | owns (owner attribute_ : ConstraintVertex) (exactness : ConstraintExactness)
  | relates (relation role : ConstraintVertex) (exactness : ConstraintExactness)
  | plays (player role : ConstraintVertex) (exactness : ConstraintExactness)
  | functionCall (name : String) (assigned arguments : List ConstraintVertex)
  | expression (text : String) (assigned : ConstraintVertex) (arguments : List ConstraintVertex)
  | is_ (lhs rhs : ConstraintVertex)
  | iid (variableRef : ConstraintVertex) (iidValue : String)
  | comparison (lhs rhs : ConstraintVertex) (comparator : Comparator)
  | kind (kindEnum : KindEnum) (type_ : ConstraintVertex)
  | label (variableRef : ConstraintVertex) (labelValue : String)
  | value (attributeType : ConstraintVertex) (valueType : String)
  | or_
  | not_
  | try_
  | unknown (kindName : String)
deriving DecidableEq, Repr

/-- Abstract accessor `.type()`: defined on the kinds whose class has it,
an `AttributeError` otherwise. -/
def Constraint.type : Constraint → Except String ConstraintVertex
  | .isa _ t _ => .ok t
  | .kind _ t => .ok t
  | _ => .error "AttributeError: constraint has no accessor type"

/-- Abstract accessor `.assigned()` of an expression constraint. -/
def Constraint.assignedVertex : Constraint → Except String ConstraintVertex
  | .expression _ a _ => .ok a
  | _ => .error "AttributeError: constraint has no single-vertex accessor assigned"

/-- Abstract accessor `.assigned()` of a function-call constraint. -/
def Constraint.assignedVertices : Constraint → Except String (List ConstraintVertex)
  | .functionCall _ a _ => .ok a
  | _ => .error "AttributeError: constraint has no list accessor assigned"

/-- Abstract accessor `.arguments()` of an expression or function-call
constraint. -/
def Constraint.argumentVertices : Constraint → Except String (List ConstraintVertex)
  | .functionCall _ _ ar => .ok ar
  | .expression _ _ ar => .ok ar
  | _ => .error "AttributeError: constraint has no accessor arguments"

/-- `Constraint.is_or()`. -/
def Constraint.is_or : Constraint → Bool
  | .or_ => true
  | _ => false

/-- `Constraint.is_not()`. -/
def Constraint.is_not : Constraint → Bool
  | .not_ => true
  | _ => false

/-- `Constraint.is_try()`. -/
def Constraint.is_try : Constraint → Bool
  | .try_ => true
  | _ => false

/-- `resolve_constraint_vertex` (data_constraint.py): the `is_*`/`as_*`
dispatch chain written as a match on the tagged union.  For a variable the
registered name is fetched first; the Python conditional expression
`ConceptVertex(concept_row.get(var_name)) if var_name else None` tests the
truthiness of the name (an absent name and the empty name are both falsy)
and wraps the raw row lookup — bound or not — in a `ConceptVertex`. -/
def resolve_constraint_vertex (pipeline : Pipeline) (vertex : ConstraintVertex)
    (concept_row : ConceptRow) : Option DataVertex :=
  match vertex with
  | .label c => some (.conceptVertex (some c))
  | .varRef v =>
      match pipeline.get_variable_name v with
      | none => none
      | some var_name =>
          if var_name == "" then none
          else some (.conceptVertex (concept_row.get var_name))
  | .value c => some (.conceptVertex (some c))
  | .namedRole v name => some (.namedRoleVertex v name)
  | .other => none

/-- Resolved `Isa` (data_constraint.py). -/
structure Isa where
  pipeline_constraint : Constraint
  answer_index : Option Int
  instance_ : PyNode
  type_ : PyNode
  exactness : ConstraintExactness

/-- Resolved `Has` (data_constraint.py). -/
structure Has where
  pipeline_constraint : Constraint
  answer_index : Option Int
  owner : PyNode
  attribute_ : PyNode
  exactness : ConstraintExactness

/-- Resolved `Links` (data_constraint.py). -/
structure Links where
  pipeline_constraint : Constraint
  answer_index : Option Int
  relation : PyNode
  player : PyNode
  role : PyNode
  exactness : ConstraintExactness

/-- Resolved `Sub` (data_constraint.py). -/
structure Sub where
  pipeline_constraint : Constraint
  answer_index : Option Int
  subtype : PyNode
  supertype : PyNode
  exactness : ConstraintExactness

/-- Resolved `Owns` (data_constraint.py). -/
structure Owns where
  pipeline_constraint : Constraint
  answer_index : Option Int
  owner : PyNode
  attribute_ : PyNode
  exactness : ConstraintExactness

/-- Resolved `Relates` (data_constraint.py). -/
structure Relates where
  pipeline_constraint : Constraint
  answer_index : Option Int
  relation : PyNode
  role : PyNode
  exactness : ConstraintExactness

/-- Resolved `Plays` (data_constraint.py). -/
structure Plays where
  pipeline_constraint : Constraint
  answer_index : Option Int
  player : PyNode
  role : PyNode
  exactness : ConstraintExactness

/-- Resolved `FunctionCall` (data_constraint.py). -/
structure FunctionCall where
  pipeline_constraint : Constraint
  answer_index : Option Int
  call_vertex : DataVertex
  arguments : List PyNode
  assigned : List PyNode

/-- Resolved `Expression` (data_constraint.py). -/
structure Expression where
  pipeline_constraint : Constraint
  answer_index : Option Int
  expr : DataVertex
  arguments : List PyNode
  assigned : PyNode

/-- Resolved `Is` (data_constraint.py). -/
structure Is where
  pipeline_constraint : Constraint
  answer_index : Option Int
  lhs : PyNode
  rhs : PyNode

/-- Resolved `Iid` (data_constraint.py). -/
structure Iid where
  pipeline_constraint : Constraint
  answer_index : Option Int
  variableRef : PyNode
  iid : String

/-- Resolved `Comparison` (data_constraint.py). -/
structure Comparison where
  pipeline_constraint : Constraint
  answer_index : Option Int
  lhs : PyNode
  rhs : PyNode
  comparator : Comparator

/-- Resolved `Kind` (data_constraint.py). -/
structure Kind where
  pipeline_constraint : Constraint
  answer_index : Option Int
  kind : KindEnum
  type_ : PyNode

/-- Resolved `Label` (data_constraint.py). -/
structure Label where
  pipeline_constraint : Constraint
  answer_index : Option Int
  variableRef : PyNode
  label : String

/-- Resolved `Value` (data_constraint.py). -/
structure Value where
  pipeline_constraint : Constraint
  answer_index : Option Int
  attribute_type : PyNode
  value_type : String

/-- `DataConstraint`: one resolved occurrence of a constraint within one
answer row; the tagged union of the 15 drawable resolved-constraint
classes. -/
inductive DataConstraint where
  | isa (c : Isa)
  | has (c : Has)
  | links (c : Links)
  | sub (c : Sub)
  | owns (c : Owns)
  | relates (c : Relates)
  | plays (c : Plays)
  | functionCall (c : FunctionCall)
  | expression (c : Expression)
  | is_ (c : Is)
  | iid (c : Iid)
  | comparison (c : Comparison)
  | kind (c : Kind)
  | label (c : Label)
  | value (c : Value)

/-- `DataConstraint.of` (data_constraint.py): constraint-resolution
dispatch.  Drawable kinds resolve every endpoint via
`resolve_constraint_vertex` and copy the metadata unchanged; or/not/try
yield `None`; anything else raises
`TypeError("Unsupported constraint variant: ...")`. -/
def DataConstraint.of (pipeline : Pipeline) (constraint : Constraint)
    (answer_index : Option Int) (concept_row : ConceptRow) :
    Except String (Option DataConstraint) :=
  match constraint with
  | .isa i t exactness =>
      .ok (some (.isa ⟨constraint, answer_index,
        resolve_constraint_vertex pipeline i concept_row,
        resolve_constraint_vertex pipeline t concept_row, exactness⟩))
  | .has owner attribute_ exactness =>
      .ok (some (.has ⟨constraint, answer_index,
        resolve_constraint_vertex pipeline owner concept_row,
        resolve_constraint_vertex pipeline attribute_ concept_row, exactness⟩))
  | .links relation player role exactness =>
      .ok (some (.links ⟨constraint, answer_index,
        resolve_constraint_vertex pipeline relation concept_row,
        resolve_constraint_vertex pipeline player concept_row,
        resolve_constraint_vertex pipeline role concept_row, exactness⟩))
  | .sub subtype supertype exactness =>
      .ok (some (.sub ⟨constraint, answer_index,
        resolve_constraint_vertex pipeline subtype concept_row,
        resolve_constraint_vertex pipeline supertype concept_row, exactness⟩))
  | .owns owner attribute_ exactness =>
      .ok (some (.owns ⟨constraint, answer_index,
        resolve_constraint_vertex pipeline owner concept_row,
        resolve_constraint_vertex pipeline attribute_ concept_row, exactness⟩))
  | .relates relation role exactness =>
      .ok (some (.relates ⟨constraint, answer_index,
        resolve_constraint_vertex pipeline relation concept_row,
        resolve_constraint_vertex pipeline role concept_row, exactness⟩))
  | .plays player role exactness =>
      .ok (some (.plays ⟨constraint, answer_index,
        resolve_constraint_vertex pipeline player concept_row,
        resolve_constraint_vertex pipeline role concept_row, exactness⟩))
  | .functionCall name assigned arguments =>
      let args := arguments.map (fun v => resolve_constraint_vertex pipeline v concept_row)
      let asg := assigned.map (fun v => resolve_constraint_vertex pipeline v concept_row)
      .ok (some (.functionCall ⟨constraint, answer_index,
        .functionCallVertex name asg args, args, asg⟩))
  | .expression text assigned arguments =>
      let args := arguments.map (fun v => resolve_constraint_vertex pipeline v concept_row)
      let asg := resolve_constraint_vertex pipeline assigned concept_row
      .ok (some (.expression ⟨constraint, answer_index,
        .expressionVertex text asg args, args, asg⟩))
  | .is_ lhs rhs =>
      .ok (some (.is_ ⟨constraint, answer_index,
        resolve_constraint_vertex pipeline lhs concept_row,
        resolve_constraint_vertex pipeline rhs concept_row⟩))
  | .iid variableRef iidValue =>
      .ok (some (.iid ⟨constraint, answer_index,
        resolve_constraint_vertex pipeline variableRef concept_row, iidValue⟩))
  | .comparison lhs rhs comparator =>
      .ok (some (.comparison ⟨constraint, answer_index,
        resolve_constraint_vertex pipeline lhs concept_row,
        resolve_constraint_vertex pipeline rhs concept_row, comparator⟩))
  | .kind kindEnum type_ =>
      .ok (some (.kind ⟨constraint, answer_index, kindEnum,
        resolve_constraint_vertex pipeline type_ concept_row⟩))
  | .label variableRef labelValue =>
      .ok (some (.label ⟨constraint, answer_index,
        resolve_constraint_vertex pipeline variableRef concept_row, labelValue⟩))
  | .value attributeType valueType =>
      .ok (some (.value ⟨constraint, answer_index,
        resolve_constraint_vertex pipeline attributeType concept_row, valueType⟩))
  | .or_ => .ok none
  | .not_ => .ok none
  | .try_ => .ok none
  | .unknown kindName => .error ("Unsupported constraint variant: " ++ kindName)

/-- The attribute dictionary attached to one edge: every edge carries a
`label`; expression/function-call edges additionally carry a `var` entry
holding the (possibly absent) variable name. -/
structure EdgeAttrs where
  label : String
  var : Option String := none
deriving DecidableEq, Repr

/-- The subset of `networkx.MultiDiGraph` state the builder uses: the node
set and the edge list, each edge keyed by its ordered endpoint pair and
carrying its attribute dictionary.  Membership tests use Python `==` on
vertices (`pyEq`), exactly as the dict-backed networkx containers do. -/
structure Graph where
  nodes : List DataVertex := []
  edges : List (DataVertex × DataVertex × EdgeAttrs) := []

/-- `networkx` `has_node`: `None` is never a node. -/
def Graph.has_node (g : Graph) (node : PyNode) : Bool :=
  g.nodes.any (fun m => pyEqOpt node (some m))

/-- `networkx` `add_node`: refuses `None` with a `ValueError`. -/
def Graph.add_node (g : Graph) (node : PyNode) : Except String Graph :=
  match node with
  | none => .error "ValueError: None cannot be a node"
  | some v => .ok { g with nodes := g.nodes ++ [v] }

/-- `networkx` `has_edge(u, v)`: some edge joins the ordered pair. -/
def Graph.has_edge (g : Graph) (u v : PyNode) : Bool :=
  g.edges.any (fun e => pyEqOpt u (some e.1) && pyEqOpt v (some e.2.1))

/-- `networkx` `add_edge`: refuses `None` endpoints, inserts missing
endpoint nodes, and appends a new keyed edge with its attributes. -/
def Graph.add_edge (g : Graph) (u v : PyNode) (attributes : EdgeAttrs) :
    Except String Graph :=
  match u, v with
  | some uv, some vv =>
      let g1 := if g.has_node u then g else { g with nodes := g.nodes ++ [uv] }
      let g2 := if g1.has_node v then g1 else { g1 with nodes := g1.nodes ++ [vv] }
      .ok { g2 with edges := g2.edges ++ [(uv, vv, attributes)] }
  | _, _ => .error "ValueError: None cannot be a node"

/-- Python `x is None` applied to an `int` value: always false.  Used to
embed the chained comparisons `0 == len(...) is None` in the
expression/function-call guards of networkx_builder.py. -/
def intIsNone (_ : Nat) : Bool := false

namespace NetworkXBuilder

/-- `NetworkXBuilder._may_add_node`. -/
def _may_add_node (g : Graph) (node : PyNode) : Except String Graph :=
  if g.has_node node then .ok g else g.add_node node

/-- `NetworkXBuilder._may_add_edge`: first-writer-wins guard on the
ordered endpoint pair. -/
def _may_add_edge (g : Graph) (u v : PyNode) (attributes : EdgeAttrs) :
    Except String Graph :=
  if g.has_edge u v then .ok g
  else
    (_may_add_node g u).bind fun g1 =>
    (_may_add_node g1 v).bind fun g2 =>
    g2.add_edge u v attributes

/-- `NetworkXBuilder.add_isa`.  The Python guard is one short-circuit
`or`, so the abstract `.type()` accessor is only reached when both
resolved endpoints are present. -/
def add_isa (g : Graph) (isa : Isa) : Except String Graph :=
  if isa.instance_.isNone || isa.type_.isNone then .ok g
  else
    (isa.pipeline_constraint.type).bind fun t =>
    if t.is_label then .ok g
    else
      let edge_type := if isa.exactness == .Exact then "isa!" else "isa"
      _may_add_edge g isa.instance_ isa.type_ { label := edge_type }

/-- `NetworkXBuilder.add_has`. -/
def add_has (g : Graph) (has : Has) : Except String Graph :=
  if has.owner.isNone || has.attribute_.isNone then .ok g
  else
    let edge_type := if has.exactness == .Exact then "has!" else "has"
    _may_add_edge g has.owner has.attribute_ { label := edge_type }

/-- The `isinstance` cascade of `NetworkXBuilder.add_links` computing
`role_label`: the concept's `get_label()` (an `AttributeError` when the
wrapped concept is Python `None`), the named-role vertex's stored name,
or `None` when the role is neither. -/
def links_role_label : PyNode → Except String (Option String)
  | some (.conceptVertex (some concept)) => .ok (some concept.get_label)
  | some (.conceptVertex none) =>
      .error "AttributeError: NoneType object has no attribute get_label"
  | some (.namedRoleVertex _ name) => .ok (some name)
  | _ => .ok none

/-- `NetworkXBuilder.add_links`.  The edge label is the f-string
`f"{role_label}"`, which renders a missing role label as the string
`"None"`. -/
def add_links (g : Graph) (links : Links) : Except String Graph :=
  if links.relation.isNone || links.player.isNone then .ok g
  else
    (links_role_label links.role).bind fun role_label =>
    let edge_type := pyFormatOptStr role_label
    _may_add_edge g links.relation links.player { label := edge_type }

/-- `NetworkXBuilder.add_sub`. -/
def add_sub (g : Graph) (sub : Sub) : Except String Graph :=
  if sub.subtype.isNone || sub.supertype.isNone then .ok g
  else
    let edge_type := if sub.exactness == .Exact then "sub!" else "sub"
    _may_add_edge g sub.subtype sub.supertype { label := edge_type }

/-- `NetworkXBuilder.add_owns`. -/
def add_owns (g : Graph) (owns : Owns) : Except String Graph :=
  if owns.owner.isNone || owns.attribute_.isNone then .ok g
  else
    let edge_type := if owns.exactness == .Exact then "owns!" else "owns"
    _may_add_edge g owns.owner owns.attribute_ { label := edge_type }

/-- `NetworkXBuilder.add_relates`. -/
def add_relates (g : Graph) (relates : Relates) : Except String Graph :=
  if relates.relation.isNone || relates.role.isNone then .ok g
  else
    let edge_type := if relates.exactness == .Exact then "relates!" else "relates"
    _may_add_edge g relates.relation relates.role { label := edge_type }

/-- `NetworkXBuilder.add_plays`. -/
def add_plays (g : Graph) (plays : Plays) : Except String Graph :=
  if plays.player.isNone || plays.role.isNone then .ok g
  else
    let edge_type := if plays.exactness == .Exact then "plays!" else "plays"
    _may_add_edge g plays.player plays.role { label := edge_type }

/-- `NetworkXBuilder.add_kind`: intentionally draws nothing. -/
def add_kind (g : Graph) (_ : Kind) : Except String Graph := .ok g

/-- `NetworkXBuilder.add_label`: intentionally draws nothing. -/
def add_label (g : Graph) (_ : Label) : Except String Graph := .ok g

/-- `NetworkXBuilder.add_value`: intentionally draws nothing. -/
def add_value (g : Graph) (_ : Value) : Except String Graph := .ok g

/-- `NetworkXBuilder.add_is`: intentionally draws nothing. -/
def add_is (g : Graph) (_ : Is) : Except String Graph := .ok g

/-- `NetworkXBuilder.add_iid`: intentionally draws nothing. -/
def add_iid (g : Graph) (_ : Iid) : Except String Graph := .ok g

/-- `NetworkXBuilder.add_comparison`: intentionally draws nothing. -/
def add_comparison (g : Graph) (_ : Comparison) : Except String Graph := .ok g

/-- The `for (arg, arg_var) in zip(...)` loop shared by `add_expression`
and `add_function_call`: one `arg[<variableName>]` edge per pair, from the
argument to `target`. -/
def emit_arg_edges (pipeline : Pipeline) (target : PyNode)
    (pairs : List (PyNode × ConstraintVertex)) (g : Graph) : Except String Graph :=
  match pairs with
  | [] => .ok g
  | (arg, arg_var) :: rest =>
      (arg_var.as_variable).bind fun v =>
      let arg_var_name := pipeline.get_variable_name v
      (_may_add_edge g arg target
        { label := "arg[" ++ pyFormatOptStr arg_var_name ++ "]",
          var := arg_var_name }).bind fun g1 =>
      emit_arg_edges pipeline target rest g1

/-- The `for (assigned, assigned_var) in zip(...)` loop of
`add_function_call`: one `assign[<variableName>]` edge per pair, from
`source` to the assigned vertex. -/
def emit_assign_edges (pipeline : Pipeline) (source : PyNode)
    (pairs : List (PyNode × ConstraintVertex)) (g : Graph) : Except String Graph :=
  match pairs with
  | [] => .ok g
  | (assigned, assigned_var) :: rest =>
      (assigned_var.as_variable).bind fun v =>
      let assigned_var_name := pipeline.get_variable_name v
      (_may_add_edge g source assigned
        { label := "assign[" ++ pyFormatOptStr assigned_var_name ++ "]",
          var := assigned_var_name }).bind fun g1 =>
      emit_assign_edges pipeline source rest g1

/-- `NetworkXBuilder.add_expression`.  The Python guard is
`expr.assigned() is None or 0 == len(expr.arguments()) is None`; its
second disjunct is the chained comparison
`(0 == len(...)) and (len(...) is None)`. -/
def add_expression (pipeline : Pipeline) (g : Graph) (expr : Expression) :
    Except String Graph :=
  if expr.assigned.isNone
      || ((0 == expr.arguments.length) && intIsNone expr.arguments.length) then
    .ok g
  else
    (expr.pipeline_constraint.assignedVertex).bind fun assignedAbs =>
    (assignedAbs.as_variable).bind fun v =>
    let assigned_var_name := pipeline.get_variable_name v
    (_may_add_edge g (some expr.expr) expr.assigned
      { label := "assign[" ++ pyFormatOptStr assigned_var_name ++ "]",
        var := assigned_var_name }).bind fun g1 =>
    (expr.pipeline_constraint.argumentVertices).bind fun argsAbs =>
    emit_arg_edges pipeline (some expr.expr) (expr.arguments.zip argsAbs) g1

/-- `NetworkXBuilder.add_function_call`.  The Python guard is
`0 == len(fc.assigned()) is None or 0 == len(fc.arguments()) is None`;
both disjuncts are chained comparisons ending in `len(...) is None`. -/
def add_function_call (pipeline : Pipeline) (g : Graph) (fc : FunctionCall) :
    Except String Graph :=
  if ((0 == fc.assigned.length) && intIsNone fc.assigned.length)
      || ((0 == fc.arguments.length) && intIsNone fc.arguments.length) then
    .ok g
  else
    (fc.pipeline_constraint.assignedVertices).bind fun assignedAbs =>
    (emit_assign_edges pipeline (some fc.call_vertex)
      (fc.assigned.zip assignedAbs) g).bind fun g1 =>
    (fc.pipeline_constraint.argumentVertices).bind fun argsAbs =>
    emit_arg_edges pipeline (some fc.call_vertex) (fc.arguments.zip argsAbs) g1

/-- One emission step: the external driver's dispatch of a resolved
constraint to the matching `add_*` entry point. -/
def emit (pipeline : Pipeline) (g : Graph) (c : DataConstraint) :
    Except String Graph :=
  match c with
  | .isa c => add_isa g c
  | .has c => add_has g c
  | .links c => add_links g c
  | .sub c => add_sub g c
  | .owns c => add_owns g c
  | .relates c => add_relates g c
  | .plays c => add_plays g c
  | .functionCall c => add_function_call pipeline g c
  | .expression c => add_expression pipeline g c
  | .is_ c => add_is g c
  | .iid c => add_iid g c
  | .comparison c => add_comparison g c
  | .kind c => add_kind g c
  | .label c => add_label g c
  | .value c => add_value g c

/-- A full emission sequence: the driver invoking `emit` once per
resolved constraint, in order. -/
def emit_all (pipeline : Pipeline) (cs : List DataConstraint) (g : Graph) :
    Except String Graph :=
  match cs with
  | [] => .ok g
  | c :: rest => (emit pipeline g c).bind fun g1 => emit_all pipeline rest g1

end NetworkXBuilder

/-- The graph invariant of the spec: at most one edge exists per ordered
(source, target) vertex pair, vertex identity taken in the Python `==`
sense. -/
def edgesPairwiseDistinct (g : Graph) : Prop :=
  g.edges.Pairwise
    (fun e1 e2 => ¬(pyEq e1.1 e2.1 = true ∧ pyEq e1.2.1 e2.2.1 = true))

/-- One graph state extends another: the node and edge lists only grow at
the end (so every existing node and edge, with its attributes, is kept
unchanged), and the dedup invariant is preserved. -/
def Extends (g g' : Graph) : Prop :=
  g.nodes <+: g'.nodes ∧ g.edges <+: g'.edges ∧
    (edgesPairwiseDistinct g → edgesPairwiseDistinct g')

/-!  Concrete fixtures used by the closed witness, counterexample and
code-evaluation theorems below. -/

def personConcept : Concept := ⟨1, "person"⟩

def aliceConcept : Concept := ⟨2, "alice"⟩

def marriageConcept : Concept := ⟨3, "marriage"⟩

def spouseConcept : Concept := ⟨4, "spouse"⟩

def vPerson : DataVertex := .conceptVertex (some personConcept)

def vAlice : DataVertex := .conceptVertex (some aliceConcept)

def vMarriage : DataVertex := .conceptVertex (some marriageConcept)

/-- A pipeline that registers the name `x` for every variable. -/
def pipelineX : Pipeline := ⟨fun _ => some "x"⟩

/-- An answer row binding the name `x` to the alice concept. -/
def rowX : ConceptRow := ⟨fun n => if n == "x" then some aliceConcept else none⟩

/-- An answer row in which every variable is unbound. -/
def unboundRow : ConceptRow := ⟨fun _ => none⟩

def emptyGraph : Graph := {}

/-- A one-edge graph that already joins `vPerson → vAlice` (label `has`). -/
def dedupG : Graph := ⟨[vPerson, vAlice], [(vPerson, vAlice, ⟨"has", none⟩)]⟩

/-- A resolved Owns between the same ordered pair as `dedupG`'s edge. -/
def ownsDC : DataConstraint :=
  .owns ⟨.owns .other .other .Inferred, none, some vPerson, some vAlice, .Inferred⟩

/-- A resolved Expression with a present assigned endpoint and an empty
argument list, as produced by `DataConstraint.of` from the abstract
constraint `.expression "1+2" (.varRef 3) []` on `pipelineX`/`rowX`. -/
def exprNoArgs : Expression :=
  ⟨.expression "1+2" (.varRef 3) [], none,
    .expressionVertex "1+2" (some vAlice) [], [], some vAlice⟩

/-- A resolved FunctionCall with an empty assigned list and one argument,
as produced by `DataConstraint.of` from the abstract constraint
`.functionCall "age" [] [.varRef 3]` on `pipelineX`/`rowX`. -/
def fcNoAssigned : FunctionCall :=
  ⟨.functionCall "age" [] [.varRef 3], none,
    .functionCallVertex "age" [] [some vAlice], [some vAlice], []⟩

/-- A resolved Links whose role resolved to a concrete role concept. -/
def linksConceptRole : Links :=
  ⟨.links .other .other .other .Inferred, none, some vMarriage, some vAlice,
    some (.conceptVertex (some spouseConcept)), .Inferred⟩

/-- A resolved Links whose role resolved to a named-role vertex. -/
def linksNamedRole : Links :=
  ⟨.links .other .other .other .Inferred, none, some vMarriage, some vAlice,
    some (.namedRoleVertex 7 "employee"), .Inferred⟩

/-- A resolved Links whose role endpoint is absent. -/
def linksNoRole : Links :=
  ⟨.links .other .other .other .Inferred, none, some vMarriage, some vAlice,
    none, .Inferred⟩

/-!  ## Theorems  -/

mutual

/-- Python `==` is reflexive on every `DataVertex`. -/
theorem pyEq_refl (v : DataVertex) : pyEq v v = true := by
  cases v with
  | conceptVertex c => simp [pyEq]
  | namedRoleVertex v n => simp [pyEq]
  | functionCallVertex n xs ys =>
      simp [pyEq, pyEqList_refl xs, pyEqList_refl ys]
  | expressionVertex t a ys =>
      simp [pyEq, pyEqOpt_refl a, pyEqList_refl ys]

/-- Python `==` is reflexive on every possibly-`None` vertex reference. -/
theorem pyEqOpt_refl (a : PyNode) : pyEqOpt a a = true := by
  cases a with
  | none => simp [pyEqOpt]
  | some v => simp [pyEqOpt, pyEq_refl v]

/-- Python `==` is reflexive on tuples of vertex references. -/
theorem pyEqList_refl (xs : List PyNode) : pyEqList xs xs = true := by
  cases xs with
  | nil => simp [pyEqList]
  | cons x xs => simp [pyEqList, pyEqOpt_refl x, pyEqList_refl xs]

end

theorem beqComm {α : Type} [BEq α] [LawfulBEq α] (a b : α) :
    (a == b) = (b == a) := by
  rw [Bool.eq_iff_iff, beq_iff_eq, beq_iff_eq]
  exact eq_comm

mutual

/-- Python `==` is symmetric on `DataVertex`. -/
theorem pyEq_symm (v w : DataVertex) : pyEq v w = pyEq w v := by
  cases v with
  | conceptVertex a => cases w <;> simp [pyEq, beqComm]
  | namedRoleVertex v1 n1 => cases w <;> simp [pyEq, beqComm]
  | functionCallVertex n1 xs1 ys1 =>
      cases w with
      | functionCallVertex n2 xs2 ys2 =>
          simp [pyEq, beqComm n1 n2, pyEqList_symm xs1 xs2, pyEqList_symm ys1 ys2]
      | conceptVertex a => simp [pyEq]
      | namedRoleVertex v2 n2 => simp [pyEq]
      | expressionVertex t2 a2 ys2 => simp [pyEq]
  | expressionVertex t1 a1 ys1 =>
      cases w with
      | expressionVertex t2 a2 ys2 =>
          simp [pyEq, beqComm t1 t2, pyEqOpt_symm a1 a2, pyEqList_symm ys1 ys2]
      | conceptVertex a => simp [pyEq]
      | namedRoleVertex v2 n2 => simp [pyEq]
      | functionCallVertex n2 xs2 ys2 => simp [pyEq]

/-- Python `==` is symmetric on possibly-`None` vertex references. -/
theorem pyEqOpt_symm (a b : PyNode) : pyEqOpt a b = pyEqOpt b a := by
  cases a with
  | none => cases b <;> simp [pyEqOpt]
  | some v =>
      cases b with
      | none => simp [pyEqOpt]
      | some w => simp [pyEqOpt, pyEq_symm v w]

/-- Python `==` is symmetric on tuples of vertex references. -/
theorem pyEqList_symm (xs ys : List PyNode) : pyEqList xs ys = pyEqList ys xs := by
  cases xs with
  | nil => cases ys <;> simp [pyEqList]
  | cons x xs =>
      cases ys with
      | nil => simp [pyEqList]
      | cons y ys => simp [pyEqList, pyEqOpt_symm x y, pyEqList_symm xs ys]

end

theorem exceptBind_ok {α β : Type} {x : Except String α} {f : α → Except String β}
    {b : β} (h : x.bind f = .ok b) : ∃ a, x = .ok a ∧ f a = .ok b := by
  cases x with
  | error e => simp [Except.bind] at h
  | ok a => exact ⟨a, rfl, by simpa [Except.bind] using h⟩

theorem has_edge_mono {g g' : Graph} {l : List (DataVertex × DataVertex × EdgeAttrs)}
    (h : g'.edges = g.edges ++ l) {u v : PyNode}
    (he : g.has_edge u v = true) : g'.has_edge u v = true := by
  unfold Graph.has_edge at he ⊢
  rw [h, List.any_append, he, Bool.true_or]

namespace NetworkXBuilder

theorem _may_add_node_ok {g g' : Graph} {n : PyNode}
    (h : _may_add_node g n = .ok g') :
    g'.edges = g.edges ∧ ∃ ln, g'.nodes = g.nodes ++ ln := by
  unfold _may_add_node at h
  split at h
  · cases h
    exact ⟨rfl, ⟨[], by simp⟩⟩
  · cases n with
    | none => simp [Graph.add_node] at h
    | some w =>
        simp only [Graph.add_node] at h
        cases h
        exact ⟨rfl, ⟨[w], rfl⟩⟩

theorem add_edge_ok {g g' : Graph} {u v : PyNode} {a : EdgeAttrs}
    (h : g.add_edge u v a = .ok g') :
    ∃ uv vv, u = some uv ∧ v = some vv ∧ (∃ ln, g'.nodes = g.nodes ++ ln) ∧
      g'.edges = g.edges ++ [(uv, vv, a)] := by
  cases u with
  | none => simp [Graph.add_edge] at h
  | some uv =>
      cases v with
      | none => simp [Graph.add_edge] at h
      | some vv =>
          simp only [Graph.add_edge] at h
          cases h
          refine ⟨uv, vv, rfl, rfl, ?_, ?_⟩
          · dsimp only
            split
            · split
              · exact ⟨[], by simp⟩
              · exact ⟨[vv], rfl⟩
            · split
              · exact ⟨[uv], rfl⟩
              · exact ⟨[uv, vv], by simp⟩
          · dsimp only
            split <;> split <;> rfl

theorem _may_add_edge_ok {g g' : Graph} {u v : PyNode} {a : EdgeAttrs}
    (h : _may_add_edge g u v a = .ok g') :
    (g.has_edge u v = true ∧ g' = g) ∨
      (g.has_edge u v = false ∧ ∃ uv vv,
        u = some uv ∧ v = some vv ∧ (∃ ln, g'.nodes = g.nodes ++ ln) ∧
        g'.edges = g.edges ++ [(uv, vv, a)]) := by
  unfold _may_add_edge at h
  split at h
  · rename_i hcond
    cases h
    exact .inl ⟨hcond, rfl⟩
  · rename_i hcond
    obtain ⟨g1, h1, h⟩ := exceptBind_ok h
    obtain ⟨g2, h2, h⟩ := exceptBind_ok h
    obtain ⟨e1, l1, hn1⟩ := _may_add_node_ok h1
    obtain ⟨e2, l2, hn2⟩ := _may_add_node_ok h2
    obtain ⟨uv, vv, hu, hv, ⟨l3, hn3⟩, he3⟩ := add_edge_ok h
    refine .inr ⟨by simpa using hcond, uv, vv, hu, hv, ⟨l1 ++ (l2 ++ l3), ?_⟩, ?_⟩
    · rw [hn3, hn2, hn1]; simp
    · rw [he3, e2, e1]

theorem _may_add_edge_has_edge {g g' : Graph} {u v : PyNode} {a : EdgeAttrs}
    (h : _may_add_edge g u v a = .ok g') : g'.has_edge u v = true := by
  rcases _may_add_edge_ok h with ⟨he, rfl⟩ | ⟨hne, uv, vv, rfl, rfl, _, he3⟩
  · exact he
  · unfold Graph.has_edge
    rw [he3, List.any_append]
    have hone : List.any [(uv, vv, a)]
        (fun e => pyEqOpt (some uv) (some e.1) && pyEqOpt (some vv) (some e.2.1)) = true := by
      simp [pyEqOpt, pyEq_refl]
    rw [hone, Bool.or_true]

theorem _may_add_edge_noop {g : Graph} {u v : PyNode} {a : EdgeAttrs}
    (h : g.has_edge u v = true) : _may_add_edge g u v a = .ok g := by
  unfold _may_add_edge
  simp [h]

end NetworkXBuilder

theorem Extends.rfl (g : Graph) : Extends g g :=
  ⟨List.prefix_refl _, List.prefix_refl _, id⟩

theorem Extends.trans {g1 g2 g3 : Graph} (h1 : Extends g1 g2)
    (h2 : Extends g2 g3) : Extends g1 g3 :=
  ⟨h1.1.trans h2.1, h1.2.1.trans h2.2.1, fun hp => h2.2.2 (h1.2.2 hp)⟩

namespace NetworkXBuilder

theorem _may_add_edge_extends {g g' : Graph} {u v : PyNode} {a : EdgeAttrs}
    (h : _may_add_edge g u v a = .ok g') : Extends g g' := by
  rcases _may_add_edge_ok h with ⟨_, rfl⟩ | ⟨hne, uv, vv, rfl, rfl, ⟨ln, hn⟩, he⟩
  · exact Extends.rfl _
  · refine ⟨⟨ln, hn.symm⟩, ⟨[(uv, vv, a)], he.symm⟩, ?_⟩
    intro hp
    unfold edgesPairwiseDistinct at hp ⊢
    rw [he, List.pairwise_append]
    refine ⟨hp, by simp, ?_⟩
    intro e hel e' he'
    simp only [List.mem_singleton] at he'
    subst he'
    have hall := hne
    unfold Graph.has_edge at hall
    rw [List.any_eq_false] at hall
    rintro ⟨hx, hy⟩
    exact hall e hel
      (by simp [pyEqOpt, pyEq_symm uv e.1, pyEq_symm vv e.2.1, hx, hy])

theorem emit_arg_edges_extends {p : Pipeline} {t : PyNode}
    {pairs : List (PyNode × ConstraintVertex)} {g g' : Graph}
    (h : emit_arg_edges p t pairs g = .ok g') : Extends g g' := by
  induction pairs generalizing g with
  | nil =>
      unfold emit_arg_edges at h
      cases h
      exact Extends.rfl _
  | cons pr rest ih =>
      obtain ⟨arg, arg_var⟩ := pr
      unfold emit_arg_edges at h
      obtain ⟨v0, hv, h⟩ := exceptBind_ok h
      obtain ⟨g1, hg1, h⟩ := exceptBind_ok h
      exact (_may_add_edge_extends hg1).trans (ih h)

theorem emit_assign_edges_extends {p : Pipeline} {s : PyNode}
    {pairs : List (PyNode × ConstraintVertex)} {g g' : Graph}
    (h : emit_assign_edges p s pairs g = .ok g') : Extends g g' := by
  induction pairs generalizing g with
  | nil =>
      unfold emit_assign_edges at h
      cases h
      exact Extends.rfl _
  | cons pr rest ih =>
      obtain ⟨assigned, assigned_var⟩ := pr
      unfold emit_assign_edges at h
      obtain ⟨v0, hv, h⟩ := exceptBind_ok h
      obtain ⟨g1, hg1, h⟩ := exceptBind_ok h
      exact (_may_add_edge_extends hg1).trans (ih h)

/-- Every successful emission step only appends to the node and edge lists
and preserves the one-edge-per-ordered-pair invariant. -/
theorem emit_extends {p : Pipeline} {g g' : Graph} {c : DataConstraint}
    (h : emit p g c = .ok g') : Extends g g' := by
  cases c with
  | isa c =>
      simp only [emit, add_isa] at h
      split at h
      · cases h; exact Extends.rfl _
      · obtain ⟨t, ht, h⟩ := exceptBind_ok h
        split at h
        · cases h; exact Extends.rfl _
        · exact _may_add_edge_extends h
  | has c =>
      simp only [emit, add_has] at h
      split at h
      · cases h; exact Extends.rfl _
      · exact _may_add_edge_extends h
  | links c =>
      simp only [emit, add_links] at h
      split at h
      · cases h; exact Extends.rfl _
      · obtain ⟨rl, hrl, h⟩ := exceptBind_ok h
        exact _may_add_edge_extends h
  | sub c =>
      simp only [emit, add_sub] at h
      split at h
      · cases h; exact Extends.rfl _
      · exact _may_add_edge_extends h
  | owns c =>
      simp only [emit, add_owns] at h
      split at h
      · cases h; exact Extends.rfl _
      · exact _may_add_edge_extends h
  | relates c =>
      simp only [emit, add_relates] at h
      split at h
      · cases h; exact Extends.rfl _
      · exact _may_add_edge_extends h
  | plays c =>
      simp only [emit, add_plays] at h
      split at h
      · cases h; exact Extends.rfl _
      · exact _may_add_edge_extends h
  | functionCall c =>
      simp only [emit, add_function_call] at h
      split at h
      · cases h; exact Extends.rfl _
      · obtain ⟨asg, hasg, h⟩ := exceptBind_ok h
        obtain ⟨g1, hg1, h⟩ := exceptBind_ok h
        obtain ⟨ags, hags, h⟩ := exceptBind_ok h
        exact (emit_assign_edges_extends hg1).trans (emit_arg_edges_extends h)
  | expression c =>
      simp only [emit, add_expression] at h
      split at h
      · cases h; exact Extends.rfl _
      · obtain ⟨asg, hasg, h⟩ := exceptBind_ok h
        obtain ⟨v0, hv, h⟩ := exceptBind_ok h
        obtain ⟨g1, hg1, h⟩ := exceptBind_ok h
        obtain ⟨ags, hags, h⟩ := exceptBind_ok h
        exact (_may_add_edge_extends hg1).trans (emit_arg_edges_extends h)
  | is_ c => simp only [emit, add_is] at h; cases h; exact Extends.rfl _
  | iid c => simp only [emit, add_iid] at h; cases h; exact Extends.rfl _
  | comparison c => simp only [emit, add_comparison] at h; cases h; exact Extends.rfl _
  | kind c => simp only [emit, add_kind] at h; cases h; exact Extends.rfl _
  | label c => simp only [emit, add_label] at h; cases h; exact Extends.rfl _
  | value c => simp only [emit, add_value] at h; cases h; exact Extends.rfl _

theorem emit_arg_edges_facts {p : Pipeline} {t : PyNode}
    {pairs : List (PyNode × ConstraintVertex)} {g g' : Graph}
    (h : emit_arg_edges p t pairs g = .ok g') :
    ∀ pr ∈ pairs, (∃ v0, pr.2.as_variable = .ok v0) ∧ g'.has_edge pr.1 t = true := by
  induction pairs generalizing g with
  | nil => intro pr hpr; simp at hpr
  | cons hd rest ih =>
      obtain ⟨arg, arg_var⟩ := hd
      unfold emit_arg_edges at h
      obtain ⟨v0, hv, h⟩ := exceptBind_ok h
      obtain ⟨g1, hg1, h⟩ := exceptBind_ok h
      intro pr hpr
      rcases List.mem_cons.mp hpr with rfl | hmem
      · refine ⟨⟨v0, hv⟩, ?_⟩
        obtain ⟨l, hl⟩ := (emit_arg_edges_extends h).2.1
        exact has_edge_mono hl.symm (_may_add_edge_has_edge hg1)
      · exact ih h pr hmem

theorem emit_assign_edges_facts {p : Pipeline} {s : PyNode}
    {pairs : List (PyNode × ConstraintVertex)} {g g' : Graph}
    (h : emit_assign_edges p s pairs g = .ok g') :
    ∀ pr ∈ pairs, (∃ v0, pr.2.as_variable = .ok v0) ∧ g'.has_edge s pr.1 = true := by
  induction pairs generalizing g with
  | nil => intro pr hpr; simp at hpr
  | cons hd rest ih =>
      obtain ⟨assigned, assigned_var⟩ := hd
      unfold emit_assign_edges at h
      obtain ⟨v0, hv, h⟩ := exceptBind_ok h
      obtain ⟨g1, hg1, h⟩ := exceptBind_ok h
      intro pr hpr
      rcases List.mem_cons.mp hpr with rfl | hmem
      · refine ⟨⟨v0, hv⟩, ?_⟩
        obtain ⟨l, hl⟩ := (emit_assign_edges_extends h).2.1
        exact has_edge_mono hl.symm (_may_add_edge_has_edge hg1)
      · exact ih h pr hmem

theorem emit_arg_edges_noop {p : Pipeline} {t : PyNode}
    {pairs : List (PyNode × ConstraintVertex)} {g : Graph}
    (hf : ∀ pr ∈ pairs, (∃ v0, pr.2.as_variable = .ok v0) ∧ g.has_edge pr.1 t = true) :
    emit_arg_edges p t pairs g = .ok g := by
  induction pairs with
  | nil => rfl
  | cons hd rest ih =>
      obtain ⟨arg, arg_var⟩ := hd
      obtain ⟨⟨v0, hv⟩, he⟩ := hf (arg, arg_var) (List.mem_cons_self _ _)
      unfold emit_arg_edges
      rw [hv]
      simp only [Except.bind]
      rw [_may_add_edge_noop he]
      simp only [Except.bind]
      exact ih (fun pr hpr => hf pr (List.mem_cons_of_mem _ hpr))

theorem emit_assign_edges_noop {p : Pipeline} {s : PyNode}
    {pairs : List (PyNode × ConstraintVertex)} {g : Graph}
    (hf : ∀ pr ∈ pairs, (∃ v0, pr.2.as_variable = .ok v0) ∧ g.has_edge s pr.1 = true) :
    emit_assign_edges p s pairs g = .ok g := by
  induction pairs with
  | nil => rfl
  | cons hd rest ih =>
      obtain ⟨assigned, assigned_var⟩ := hd
      obtain ⟨⟨v0, hv⟩, he⟩ := hf (assigned, assigned_var) (List.mem_cons_self _ _)
      unfold emit_assign_edges
      rw [hv]
      simp only [Except.bind]
      rw [_may_add_edge_noop he]
      simp only [Except.bind]
      exact ih (fun pr hpr => hf pr (List.mem_cons_of_mem _ hpr))

/-- A successful emission sequence only appends and preserves the
invariant. -/
theorem emit_all_extends {p : Pipeline} {cs : List DataConstraint} {g g' : Graph}
    (h : emit_all p cs g = .ok g') : Extends g g' := by
  induction cs generalizing g with
  | nil =>
      unfold emit_all at h
      cases h
      exact Extends.rfl _
  | cons c rest ih =>
      unfold emit_all at h
      obtain ⟨g1, hg1, h⟩ := exceptBind_ok h
      exact (emit_extends hg1).trans (ih h)

/-- C6: Dedup idempotence — emitting the same resolved constraint twice in
succession yields a graph identical to emitting it once: whenever the
dispatch `emit p g c` succeeds with result graph `g'`, emitting `c` again
on `g'` succeeds and returns exactly `g'` (same vertex list, same edge
list, same edge labels and attributes). -/
theorem c6_emit_idempotent {p : Pipeline} {g g' : Graph} {c : DataConstraint}
    (h : emit p g c = .ok g') : emit p g' c = .ok g' := by
  cases c with
  | isa c =>
      simp only [emit, add_isa] at h ⊢
      split at h
      · rename_i hc
        cases h
        rw [if_pos hc]
      · rename_i hc
        obtain ⟨t, ht, h⟩ := exceptBind_ok h
        rw [if_neg hc, ht]
        simp only [Except.bind]
        split at h
        · rename_i htl
          cases h
          rw [if_pos htl]
        · rename_i htl
          rw [if_neg htl]
          exact _may_add_edge_noop (_may_add_edge_has_edge h)
  | has c =>
      simp only [emit, add_has] at h ⊢
      split at h
      · rename_i hc; cases h; rw [if_pos hc]
      · rename_i hc
        rw [if_neg hc]
        exact _may_add_edge_noop (_may_add_edge_has_edge h)
  | links c =>
      simp only [emit, add_links] at h ⊢
      split at h
      · rename_i hc; cases h; rw [if_pos hc]
      · rename_i hc
        obtain ⟨rl, hrl, h⟩ := exceptBind_ok h
        rw [if_neg hc, hrl]
        simp only [Except.bind]
        exact _may_add_edge_noop (_may_add_edge_has_edge h)
  | sub c =>
      simp only [emit, add_sub] at h ⊢
      split at h
      · rename_i hc; cases h; rw [if_pos hc]
      · rename_i hc
        rw [if_neg hc]
        exact _may_add_edge_noop (_may_add_edge_has_edge h)
  | owns c =>
      simp only [emit, add_owns] at h ⊢
      split at h
      · rename_i hc; cases h; rw [if_pos hc]
      · rename_i hc
        rw [if_neg hc]
        exact _may_add_edge_noop (_may_add_edge_has_edge h)
  | relates c =>
      simp only [emit, add_relates] at h ⊢
      split at h
      · rename_i hc; cases h; rw [if_pos hc]
      · rename_i hc
        rw [if_neg hc]
        exact _may_add_edge_noop (_may_add_edge_has_edge h)
  | plays c =>
      simp only [emit, add_plays] at h ⊢
      split at h
      · rename_i hc; cases h; rw [if_pos hc]
      · rename_i hc
        rw [if_neg hc]
        exact _may_add_edge_noop (_may_add_edge_has_edge h)
  | functionCall c =>
      simp only [emit, add_function_call] at h ⊢
      split at h
      · rename_i hc; cases h; rw [if_pos hc]
      · rename_i hc
        obtain ⟨asg, hasg, h⟩ := exceptBind_ok h
        obtain ⟨g1, hg1, h⟩ := exceptBind_ok h
        obtain ⟨ags, hags, h⟩ := exceptBind_ok h
        rw [if_neg hc, hasg]
        simp only [Except.bind]
        obtain ⟨l, hl⟩ := (emit_arg_edges_extends h).2.1
        have hasgf := emit_assign_edges_facts hg1
        rw [emit_assign_edges_noop (fun pr hpr =>
          ⟨(hasgf pr hpr).1, has_edge_mono hl.symm (hasgf pr hpr).2⟩)]
        simp only [Except.bind]
        rw [hags]
        simp only [Except.bind]
        exact emit_arg_edges_noop (emit_arg_edges_facts h)
  | expression c =>
      simp only [emit, add_expression] at h ⊢
      split at h
      · rename_i hc; cases h; rw [if_pos hc]
      · rename_i hc
        obtain ⟨asg, hasg, h⟩ := exceptBind_ok h
        obtain ⟨v0, hv, h⟩ := exceptBind_ok h
        obtain ⟨g1, hg1, h⟩ := exceptBind_ok h
        obtain ⟨ags, hags, h⟩ := exceptBind_ok h
        rw [if_neg hc, hasg]
        simp only [Except.bind]
        rw [hv]
        simp only [Except.bind]
        obtain ⟨l, hl⟩ := (emit_arg_edges_extends h).2.1
        rw [_may_add_edge_noop
          (has_edge_mono hl.symm (_may_add_edge_has_edge hg1))]
        simp only [Except.bind]
        rw [hags]
        simp only [Except.bind]
        exact emit_arg_edges_noop (emit_arg_edges_facts h)
  | is_ c => simp only [emit, add_is] at h ⊢
  | iid c => simp only [emit, add_iid] at h ⊢
  | comparison c => simp only [emit, add_comparison] at h ⊢
  | kind c => simp only [emit, add_kind] at h ⊢
  | label c => simp only [emit, add_label] at h ⊢
  | value c => simp only [emit, add_value] at h ⊢

theorem _may_add_edge_adds {g : Graph} {uv vv : DataVertex} {a : EdgeAttrs}
    (h : g.has_edge (some uv) (some vv) = false) :
    ∃ g', _may_add_edge g (some uv) (some vv) a = .ok g' ∧
      g'.edges = g.edges ++ [(uv, vv, a)] := by
  have h1 : ∃ gA, _may_add_node g (some uv) = .ok gA ∧ gA.edges = g.edges := by
    unfold _may_add_node Graph.add_node
    split
    · exact ⟨g, rfl, rfl⟩
    · exact ⟨_, rfl, rfl⟩
  obtain ⟨gA, hA, hAe⟩ := h1
  have h2 : ∃ gB, _may_add_node gA (some vv) = .ok gB ∧ gB.edges = gA.edges := by
    unfold _may_add_node Graph.add_node
    split
    · exact ⟨gA, rfl, rfl⟩
    · exact ⟨_, rfl, rfl⟩
  obtain ⟨gB, hB, hBe⟩ := h2
  have h3 : ∃ gC, gB.add_edge (some uv) (some vv) a = .ok gC ∧
      gC.edges = gB.edges ++ [(uv, vv, a)] := by
    unfold Graph.add_edge
    dsimp only
    split <;> split <;> exact ⟨_, rfl, rfl⟩
  obtain ⟨gC, hC, hCe⟩ := h3
  refine ⟨gC, ?_, by rw [hCe, hBe, hAe]⟩
  unfold _may_add_edge
  rw [if_neg (by simp [h]), hA]
  simp only [Except.bind]
  rw [hB]
  simp only [Except.bind]
  exact hC

/-- C10: every successful emission step grows the graph monotonically —
the resulting node and edge lists extend the previous ones as prefixes,
so the vertex set and edge set are supersets of the previous ones and no
existing edge (with its label and attributes) is removed or overwritten. -/
theorem c10_emit_monotone {p : Pipeline} {g g' : Graph} {c : DataConstraint}
    (h : emit p g c = .ok g') :
    g.nodes <+: g'.nodes ∧ g.edges <+: g'.edges ∧
      (∀ n ∈ g.nodes, n ∈ g'.nodes) ∧ (∀ e ∈ g.edges, e ∈ g'.edges) := by
  obtain ⟨hn, he, _⟩ := emit_extends h
  exact ⟨hn, he, fun n hm => hn.subset hm, fun e hm => he.subset hm⟩

/-- C10 witness: emitting a concrete Has constraint on the empty graph
succeeds, and the theorem's conclusions hold there. -/
theorem c10_emit_monotone_witness :
    (emit pipelineX emptyGraph
        (.has ⟨.has .other .other .Inferred, none, some vPerson, some vAlice, .Inferred⟩)
      = .ok ⟨[vPerson, vAlice], [(vPerson, vAlice, ⟨"has", none⟩)]⟩) ∧
    (emptyGraph.nodes <+: [vPerson, vAlice] ∧
      emptyGraph.edges <+: [(vPerson, vAlice, (⟨"has", none⟩ : EdgeAttrs))] ∧
      (∀ n ∈ emptyGraph.nodes, n ∈ [vPerson, vAlice]) ∧
      (∀ e ∈ emptyGraph.edges, e ∈ [(vPerson, vAlice, (⟨"has", none⟩ : EdgeAttrs))])) := by
  have hEval : emit pipelineX emptyGraph
      (.has ⟨.has .other .other .Inferred, none, some vPerson, some vAlice, .Inferred⟩)
      = .ok ⟨[vPerson, vAlice], [(vPerson, vAlice, ⟨"has", none⟩)]⟩ := by
    simp [emit, add_has, _may_add_edge, _may_add_node, Graph.has_edge, Graph.has_node,
      Graph.add_node, Graph.add_edge, Except.bind, pyEqOpt, pyEq, vPerson, vAlice,
      personConcept, aliceConcept, emptyGraph]
  exact ⟨hEval, c10_emit_monotone hEval⟩

/-- C1: the ordered-pair dedup invariant.  First, once an edge exists for
an ordered (source, target) pair, any later `_may_add_edge` attempt for
that pair — whatever its label or attributes — returns the graph
unchanged.  Second, over every successful emission sequence, the
at-most-one-edge-per-ordered-pair invariant is preserved and every
already-present edge survives with its original label and attributes (the
first-emitted edge is the one that remains). -/
theorem c1_ordered_pair_dedup :
    (∀ (g : Graph) (u v : PyNode) (a : EdgeAttrs),
        g.has_edge u v = true → _may_add_edge g u v a = .ok g) ∧
    (∀ (p : Pipeline) (cs : List DataConstraint) (g g' : Graph),
        emit_all p cs g = .ok g' → edgesPairwiseDistinct g →
        edgesPairwiseDistinct g' ∧ ∀ e ∈ g.edges, e ∈ g'.edges) := by
  refine ⟨fun g u v a h => _may_add_edge_noop h, fun p cs g g' h hp => ?_⟩
  obtain ⟨hn, he, hinv⟩ := emit_all_extends h
  exact ⟨hinv hp, fun e hm => he.subset hm⟩

/-- C1 witness: on a one-edge graph already joining `vPerson → vAlice`
with label `has`, a later attempt with the differing label `owns` (both
directly and through a full emission sequence) leaves the graph — and in
particular its edge set — unchanged. -/
theorem c1_ordered_pair_dedup_witness :
    (dedupG.has_edge (some vPerson) (some vAlice) = true ∧
      _may_add_edge dedupG (some vPerson) (some vAlice) ⟨"owns", none⟩ = .ok dedupG) ∧
    (emit_all pipelineX [ownsDC] dedupG = .ok dedupG ∧
      edgesPairwiseDistinct dedupG ∧
      edgesPairwiseDistinct dedupG ∧ ∀ e ∈ dedupG.edges, e ∈ dedupG.edges) := by
  have hE : dedupG.has_edge (some vPerson) (some vAlice) = true := by
    simp [dedupG, Graph.has_edge, pyEqOpt, pyEq, vPerson, vAlice, personConcept,
      aliceConcept]
  have hEmit : emit_all pipelineX [ownsDC] dedupG = .ok dedupG := by
    simp [emit_all, emit, add_owns, ownsDC, _may_add_edge, hE, Except.bind]
  have hPD : edgesPairwiseDistinct dedupG := by
    simp [edgesPairwiseDistinct, dedupG]
  exact ⟨⟨hE, c1_ordered_pair_dedup.1 dedupG _ _ _ hE⟩,
    ⟨hEmit, hPD, c1_ordered_pair_dedup.2 pipelineX [ownsDC] dedupG dedupG hEmit hPD⟩⟩

/-- C2 counterexample: with a pipeline that registers the name `x` for
the variable and a row in which `x` is unbound, resolving the variable
endpoint returns a present `ConceptVertex` wrapping the absent value —
not absent — and a Has constraint requiring that endpoint still emits an
edge for the row. -/
theorem c2_counterexample :
    resolve_constraint_vertex pipelineX (.varRef 0) unboundRow
        = some (.conceptVertex none) ∧
    resolve_constraint_vertex pipelineX (.varRef 0) unboundRow ≠ none ∧
    emit pipelineX emptyGraph
        (.has ⟨.has (.varRef 0) .other .Inferred, none,
          some (.conceptVertex none), some vAlice, .Inferred⟩)
      = .ok ⟨[.conceptVertex none, vAlice],
             [(.conceptVertex none, vAlice, ⟨"has", none⟩)]⟩ := by
  refine ⟨?_, ?_, ?_⟩
  · simp [resolve_constraint_vertex, pipelineX, unboundRow]
  · simp [resolve_constraint_vertex, pipelineX, unboundRow]
  · simp [emit, add_has, _may_add_edge, _may_add_node, Graph.has_edge, Graph.has_node,
      Graph.add_node, Graph.add_edge, Except.bind, pyEqOpt, pyEq, vAlice,
      aliceConcept, emptyGraph]

/-- C2 (amended): variable-endpoint resolution yields absent exactly when
the pipeline registers no name (or the falsy empty name) for the
variable.  When a non-empty name is registered, the raw row lookup —
absent or not — is wrapped in a present `ConceptVertex`, and a constraint
requiring that endpoint still emits an edge for the row. -/
theorem c2_amended :
    (∀ (p : Pipeline) (v : Variable) (row : ConceptRow),
        p.get_variable_name v = none →
        resolve_constraint_vertex p (.varRef v) row = none) ∧
    (∀ (p : Pipeline) (v : Variable) (row : ConceptRow) (n : String),
        p.get_variable_name v = some n → ¬n = "" →
        resolve_constraint_vertex p (.varRef v) row
          = some (.conceptVertex (row.get n))) ∧
    (∀ (g : Graph) (hs : Has) (av : DataVertex),
        hs.owner = some (.conceptVertex none) → hs.attribute_ = some av →
        g.has_edge hs.owner hs.attribute_ = false →
        ∃ g', add_has g hs = .ok g' ∧
          g'.edges = g.edges
            ++ [(.conceptVertex none, av,
                  ⟨if hs.exactness == .Exact then "has!" else "has", none⟩)]) := by
  refine ⟨?_, ?_, ?_⟩
  · intro p v row h
    simp [resolve_constraint_vertex, h]
  · intro p v row n h hn
    simp [resolve_constraint_vertex, h, hn]
  · intro g hs av ho ha hhe
    rw [ho, ha] at hhe
    obtain ⟨g', hmae, hedg⟩ := _may_add_edge_adds
      (a := ⟨if hs.exactness == .Exact then "has!" else "has", none⟩) hhe
    refine ⟨g', ?_, hedg⟩
    unfold add_has
    rw [ho, ha, if_neg (by simp)]
    exact hmae

/-- C2 witness: the amended theorem applied at the concrete pipeline
registering `x`, the row with `x` unbound, and an emission of the
resulting Has record on the empty graph. -/
theorem c2_amended_witness :
    (pipelineX.get_variable_name 0 = some "x" ∧ ¬("x" = "") ∧
      resolve_constraint_vertex pipelineX (.varRef 0) unboundRow
        = some (.conceptVertex (unboundRow.get "x"))) ∧
    (emptyGraph.has_edge (some (DataVertex.conceptVertex none)) (some vAlice) = false ∧
      ∃ g', add_has emptyGraph
          ⟨.has (.varRef 0) .other .Inferred, none, some (.conceptVertex none),
            some vAlice, .Inferred⟩ = .ok g' ∧
        g'.edges = emptyGraph.edges
          ++ [(.conceptVertex none, vAlice, ⟨"has", none⟩)]) := by
  have h1 : pipelineX.get_variable_name 0 = some "x" := rfl
  have h2 : ¬("x" = "") := by decide
  have h3 : emptyGraph.has_edge (some (DataVertex.conceptVertex none))
      (some vAlice) = false := rfl
  refine ⟨⟨h1, h2, c2_amended.2.1 pipelineX 0 unboundRow "x" h1 h2⟩, h3, ?_⟩
  have happ := c2_amended.2.2 emptyGraph
    ⟨.has (.varRef 0) .other .Inferred, none, some (.conceptVertex none),
      some vAlice, .Inferred⟩ vAlice rfl rfl h3
  simpa using happ

/-- C7 counterexample: a Links whose role endpoint resolved to neither a
concept vertex nor a named-role vertex emits an edge whose label is the
present four-character string `"None"`, not an absent label. -/
theorem c7_counterexample :
    add_links emptyGraph linksNoRole
      = .ok ⟨[vMarriage, vAlice], [(vMarriage, vAlice, ⟨"None", none⟩)]⟩ := by
  simp [add_links, linksNoRole, links_role_label, pyFormatOptStr, _may_add_edge,
    _may_add_node, Graph.has_edge, Graph.has_node, Graph.add_node, Graph.add_edge,
    Except.bind, pyEqOpt, pyEq, vMarriage, vAlice, marriageConcept, aliceConcept,
    emptyGraph]

/-- C7 (amended): emitting a Links whose relation and player endpoints
are present, on a graph not yet joining that ordered pair, adds one edge
relation → player; the label is the concept's label when the role
resolved to a vertex wrapping a concrete role concept, the stored name
when it resolved to a named-role vertex, and the literal string `"None"`
when the role endpoint is absent. -/
theorem c7_amended :
    (∀ (g : Graph) (lk : Links) (rv pv : DataVertex) (c : Concept),
        lk.relation = some rv → lk.player = some pv →
        lk.role = some (.conceptVertex (some c)) →
        g.has_edge lk.relation lk.player = false →
        ∃ g', add_links g lk = .ok g' ∧
          g'.edges = g.edges ++ [(rv, pv, ⟨c.get_label, none⟩)]) ∧
    (∀ (g : Graph) (lk : Links) (rv pv : DataVertex) (nv : Variable) (nm : String),
        lk.relation = some rv → lk.player = some pv →
        lk.role = some (.namedRoleVertex nv nm) →
        g.has_edge lk.relation lk.player = false →
        ∃ g', add_links g lk = .ok g' ∧
          g'.edges = g.edges ++ [(rv, pv, ⟨nm, none⟩)]) ∧
    (∀ (g : Graph) (lk : Links) (rv pv : DataVertex),
        lk.relation = some rv → lk.player = some pv → lk.role = none →
        g.has_edge lk.relation lk.player = false →
        ∃ g', add_links g lk = .ok g' ∧
          g'.edges = g.edges ++ [(rv, pv, ⟨"None", none⟩)]) := by
  refine ⟨?_, ?_, ?_⟩
  · intro g lk rv pv c hr hp hrole hhe
    rw [hr, hp] at hhe
    obtain ⟨g', hmae, hedg⟩ := _may_add_edge_adds
      (a := ⟨c.get_label, none⟩) hhe
    refine ⟨g', ?_, hedg⟩
    unfold add_links
    rw [hr, hp, hrole, if_neg (by simp)]
    simp only [links_role_label, Except.bind, pyFormatOptStr]
    exact hmae
  · intro g lk rv pv nv nm hr hp hrole hhe
    rw [hr, hp] at hhe
    obtain ⟨g', hmae, hedg⟩ := _may_add_edge_adds (a := ⟨nm, none⟩) hhe
    refine ⟨g', ?_, hedg⟩
    unfold add_links
    rw [hr, hp, hrole, if_neg (by simp)]
    simp only [links_role_label, Except.bind, pyFormatOptStr]
    exact hmae
  · intro g lk rv pv hr hp hrole hhe
    rw [hr, hp] at hhe
    obtain ⟨g', hmae, hedg⟩ := _may_add_edge_adds (a := ⟨"None", none⟩) hhe
    refine ⟨g', ?_, hedg⟩
    unfold add_links
    rw [hr, hp, hrole, if_neg (by simp)]
    simp only [links_role_label, Except.bind, pyFormatOptStr]
    exact hmae

/-- C7 witness: the amended theorem applied to concrete Links records on
the empty graph, covering the concrete-concept role (label from
`get_label`) and the named-role case (label `employee`). -/
theorem c7_amended_witness :
    emptyGraph.has_edge (some vMarriage) (some vAlice) = false ∧
    (∃ g', add_links emptyGraph linksConceptRole = .ok g' ∧
      g'.edges = emptyGraph.edges
        ++ [(vMarriage, vAlice, ⟨spouseConcept.get_label, none⟩)]) ∧
    (∃ g', add_links emptyGraph linksNamedRole = .ok g' ∧
      g'.edges = emptyGraph.edges ++ [(vMarriage, vAlice, ⟨"employee", none⟩)]) := by
  have h0 : emptyGraph.has_edge (some vMarriage) (some vAlice) = false := rfl
  exact ⟨h0,
    c7_amended.1 emptyGraph linksConceptRole vMarriage vAlice spouseConcept
      rfl rfl rfl h0,
    c7_amended.2.1 emptyGraph linksNamedRole vMarriage vAlice 7 "employee"
      rfl rfl rfl h0⟩

/-- C3 code evaluation at the failing input: the Python guard
`expr.assigned() is None or 0 == len(expr.arguments()) is None` never
fires on an empty argument list (the chained comparison
`0 == len(...) is None` is always false), so an Expression with a present
assigned endpoint and an empty argument list still adds its
`assign[<variableName>]` edge, contradicting the documented
argument-list-non-empty precondition. -/
theorem c3_code_evaluation :
    DataConstraint.of pipelineX (.expression "1+2" (.varRef 3) []) none rowX
      = .ok (some (.expression exprNoArgs)) ∧
    add_expression pipelineX emptyGraph exprNoArgs
      = .ok ⟨[.expressionVertex "1+2" (some vAlice) [], vAlice],
             [(.expressionVertex "1+2" (some vAlice) [], vAlice,
               ⟨"assign[x]", some "x"⟩)]⟩ := by
  constructor
  · simp [DataConstraint.of, resolve_constraint_vertex, pipelineX, rowX,
      exprNoArgs, vAlice, aliceConcept]
  · simp [add_expression, exprNoArgs, Constraint.assignedVertex,
      Constraint.argumentVertices, ConstraintVertex.as_variable, pipelineX,
      pyFormatOptStr, _may_add_edge, _may_add_node, Graph.has_edge, Graph.has_node,
      Graph.add_node, Graph.add_edge, Except.bind, pyEqOpt, pyEq, pyEqList,
      emit_arg_edges, vAlice, aliceConcept, emptyGraph, intIsNone]

/-- C4 code evaluation at the failing input: the Python guard
`0 == len(fc.assigned()) is None or 0 == len(fc.arguments()) is None` is
always false (both disjuncts are chained comparisons ending in
`len(...) is None`), so a FunctionCall with an empty assigned list and a
non-empty argument list still adds its `arg[<variableName>]` edge,
contradicting the documented both-lists-non-empty precondition. -/
theorem c4_code_evaluation :
    DataConstraint.of pipelineX (.functionCall "age" [] [.varRef 3]) none rowX
      = .ok (some (.functionCall fcNoAssigned)) ∧
    add_function_call pipelineX emptyGraph fcNoAssigned
      = .ok ⟨[vAlice, .functionCallVertex "age" [] [some vAlice]],
             [(vAlice, .functionCallVertex "age" [] [some vAlice],
               ⟨"arg[x]", some "x"⟩)]⟩ := by
  constructor
  · simp [DataConstraint.of, resolve_constraint_vertex, pipelineX, rowX,
      fcNoAssigned, vAlice, aliceConcept]
  · simp [add_function_call, fcNoAssigned, Constraint.assignedVertices,
      Constraint.argumentVertices, ConstraintVertex.as_variable, pipelineX,
      pyFormatOptStr, _may_add_edge, _may_add_node, Graph.has_edge, Graph.has_node,
      Graph.add_node, Graph.add_edge, Except.bind, pyEqOpt, pyEq, pyEqList,
      emit_arg_edges, emit_assign_edges, vAlice, aliceConcept, emptyGraph, intIsNone]

/-- C6 witness: emitting a concrete Owns constraint on the empty graph
succeeds, and emitting it a second time on the resulting graph returns
that graph unchanged. -/
theorem c6_emit_idempotent_witness :
    (emit pipelineX emptyGraph ownsDC
      = .ok ⟨[vPerson, vAlice], [(vPerson, vAlice, ⟨"owns", none⟩)]⟩) ∧
    emit pipelineX ⟨[vPerson, vAlice], [(vPerson, vAlice, ⟨"owns", none⟩)]⟩ ownsDC
      = .ok ⟨[vPerson, vAlice], [(vPerson, vAlice, ⟨"owns", none⟩)]⟩ := by
  have hEval : emit pipelineX emptyGraph ownsDC
      = .ok ⟨[vPerson, vAlice], [(vPerson, vAlice, ⟨"owns", none⟩)]⟩ := by
    simp [emit, add_owns, ownsDC, _may_add_edge, _may_add_node, Graph.has_edge,
      Graph.has_node, Graph.add_node, Graph.add_edge, Except.bind, pyEqOpt, pyEq,
      vPerson, vAlice, personConcept, aliceConcept, emptyGraph]
  exact ⟨hEval, c6_emit_idempotent hEval⟩

end NetworkXBuilder

/-- C5: constraint-resolution dispatch is total over the closed set of 18
recognized kinds — every disjunction, negation and try-alternative
resolves to absent; an unrecognized kind raises a `TypeError` naming the
concrete unknown kind; and every recognized kind resolves without
raising. -/
theorem c5_dispatch_closed :
    (∀ (p : Pipeline) (ai : Option Int) (row : ConceptRow) (c : Constraint),
        (c.is_or || c.is_not || c.is_try) = true →
        DataConstraint.of p c ai row = .ok none) ∧
    (∀ (p : Pipeline) (ai : Option Int) (row : ConceptRow) (k : String),
        DataConstraint.of p (.unknown k) ai row
          = .error ("Unsupported constraint variant: " ++ k)) ∧
    (∀ (p : Pipeline) (ai : Option Int) (row : ConceptRow) (c : Constraint),
        (∀ k, c ≠ .unknown k) →
        ∃ r, DataConstraint.of p c ai row = .ok r) := by
  refine ⟨?_, ?_, ?_⟩
  · intro p ai row c h
    cases c <;>
      simp [Constraint.is_or, Constraint.is_not, Constraint.is_try] at h <;> rfl
  · intro p ai row k
    rfl
  · intro p ai row c h
    cases c
    case unknown k => exact absurd rfl (h k)
    all_goals exact ⟨_, rfl⟩

/-- C5 witness: the dispatch theorem applied at a disjunction, at a
concrete unknown kind, and at a recognized drawable kind. -/
theorem c5_dispatch_closed_witness :
    ((Constraint.or_.is_or || Constraint.or_.is_not || Constraint.or_.is_try) = true ∧
      DataConstraint.of pipelineX Constraint.or_ none unboundRow = .ok none) ∧
    DataConstraint.of pipelineX (.unknown "FancyNewConstraint") none unboundRow
      = .error ("Unsupported constraint variant: " ++ "FancyNewConstraint") ∧
    ∃ r, DataConstraint.of pipelineX (.isa .other .other .Inferred) none unboundRow
      = .ok r :=
  ⟨⟨rfl, c5_dispatch_closed.1 pipelineX none unboundRow .or_ rfl⟩,
    c5_dispatch_closed.2.1 pipelineX none unboundRow "FancyNewConstraint",
    c5_dispatch_closed.2.2 pipelineX none unboundRow (.isa .other .other .Inferred)
      (fun _ h => nomatch h)⟩

/-- C8: vertex identity is value-based — two `ConceptVertex` are equal
(under Python `==`) iff the wrapped concepts are equal, and equal wrapped
concepts give identical hashes; two `NamedRoleVertex` are equal iff their
bound variables are equal, and with the same variable but arbitrary
(possibly different) display names they are equal and hash identically —
the name is excluded from both equality and hash. -/
theorem c8_vertex_identity :
    (∀ a b : Option Concept,
        (pyEq (.conceptVertex a) (.conceptVertex b) = true) ↔ a = b) ∧
    (∀ a b : Option Concept, a = b →
        pyHash (.conceptVertex a) = pyHash (.conceptVertex b)) ∧
    (∀ (v1 v2 : Variable) (n1 n2 : String),
        (pyEq (.namedRoleVertex v1 n1) (.namedRoleVertex v2 n2) = true) ↔ v1 = v2) ∧
    (∀ (v : Variable) (n1 n2 : String),
        pyEq (.namedRoleVertex v n1) (.namedRoleVertex v n2) = true ∧
        pyHash (.namedRoleVertex v n1) = pyHash (.namedRoleVertex v n2)) := by
  refine ⟨?_, ?_, ?_, ?_⟩
  · intro a b
    simp [pyEq]
  · intro a b h
    rw [h]
  · intro v1 v2 n1 n2
    simp [pyEq]
  · intro v n1 n2
    exact ⟨by simp [pyEq], by simp [pyHash]⟩

/-- C8 witness: the identity theorem applied at equal concrete concepts
and at two named-role vertices sharing a variable but differing in name. -/
theorem c8_vertex_identity_witness :
    pyHash (.conceptVertex (some aliceConcept))
        = pyHash (.conceptVertex (some aliceConcept)) ∧
    pyEq (.namedRoleVertex 7 "employee") (.namedRoleVertex 7 "boss") = true ∧
    pyHash (.namedRoleVertex 7 "employee") = pyHash (.namedRoleVertex 7 "boss") :=
  ⟨c8_vertex_identity.2.1 (some aliceConcept) (some aliceConcept) rfl,
    (c8_vertex_identity.2.2.2 7 "employee" "boss").1,
    (c8_vertex_identity.2.2.2 7 "employee" "boss").2⟩

/-- C9: for every drawable constraint kind, `DataConstraint.of` neither
returns absent nor raises — it returns the resolved record whose endpoint
fields are exactly the (possibly absent) results of
`resolve_constraint_vertex`, deferring the skip decision to emission. -/
theorem c9_absent_endpoints_carried :
    (∀ (p : Pipeline) (ai : Option Int) (row : ConceptRow)
        (i t : ConstraintVertex) (e : ConstraintExactness),
      DataConstraint.of p (.isa i t e) ai row = .ok (some (.isa
        ⟨.isa i t e, ai, resolve_constraint_vertex p i row,
          resolve_constraint_vertex p t row, e⟩))) ∧
    (∀ (p : Pipeline) (ai : Option Int) (row : ConceptRow)
        (o a : ConstraintVertex) (e : ConstraintExactness),
      DataConstraint.of p (.has o a e) ai row = .ok (some (.has
        ⟨.has o a e, ai, resolve_constraint_vertex p o row,
          resolve_constraint_vertex p a row, e⟩))) ∧
    (∀ (p : Pipeline) (ai : Option Int) (row : ConceptRow)
        (r pl ro : ConstraintVertex) (e : ConstraintExactness),
      DataConstraint.of p (.links r pl ro e) ai row = .ok (some (.links
        ⟨.links r pl ro e, ai, resolve_constraint_vertex p r row,
          resolve_constraint_vertex p pl row,
          resolve_constraint_vertex p ro row, e⟩))) ∧
    (∀ (p : Pipeline) (ai : Option Int) (row : ConceptRow)
        (s t : ConstraintVertex) (e : ConstraintExactness),
      DataConstraint.of p (.sub s t e) ai row = .ok (some (.sub
        ⟨.sub s t e, ai, resolve_constraint_vertex p s row,
          resolve_constraint_vertex p t row, e⟩))) ∧
    (∀ (p : Pipeline) (ai : Option Int) (row : ConceptRow)
        (o a : ConstraintVertex) (e : ConstraintExactness),
      DataConstraint.of p (.owns o a e) ai row = .ok (some (.owns
        ⟨.owns o a e, ai, resolve_constraint_vertex p o row,
          resolve_constraint_vertex p a row, e⟩))) ∧
    (∀ (p : Pipeline) (ai : Option Int) (row : ConceptRow)
        (r ro : ConstraintVertex) (e : ConstraintExactness),
      DataConstraint.of p (.relates r ro e) ai row = .ok (some (.relates
        ⟨.relates r ro e, ai, resolve_constraint_vertex p r row,
          resolve_constraint_vertex p ro row, e⟩))) ∧
    (∀ (p : Pipeline) (ai : Option Int) (row : ConceptRow)
        (pl ro : ConstraintVertex) (e : ConstraintExactness),
      DataConstraint.of p (.plays pl ro e) ai row = .ok (some (.plays
        ⟨.plays pl ro e, ai, resolve_constraint_vertex p pl row,
          resolve_constraint_vertex p ro row, e⟩))) ∧
    (∀ (p : Pipeline) (ai : Option Int) (row : ConceptRow)
        (nm : String) (asg args : List ConstraintVertex),
      DataConstraint.of p (.functionCall nm asg args) ai row
        = .ok (some (.functionCall
          ⟨.functionCall nm asg args, ai,
            .functionCallVertex nm
              (asg.map (fun v => resolve_constraint_vertex p v row))
              (args.map (fun v => resolve_constraint_vertex p v row)),
            args.map (fun v => resolve_constraint_vertex p v row),
            asg.map (fun v => resolve_constraint_vertex p v row)⟩))) ∧
    (∀ (p : Pipeline) (ai : Option Int) (row : ConceptRow)
        (tx : String) (asg : ConstraintVertex) (args : List ConstraintVertex),
      DataConstraint.of p (.expression tx asg args) ai row
        = .ok (some (.expression
          ⟨.expression tx asg args, ai,
            .expressionVertex tx (resolve_constraint_vertex p asg row)
              (args.map (fun v => resolve_constraint_vertex p v row)),
            args.map (fun v => resolve_constraint_vertex p v row),
            resolve_constraint_vertex p asg row⟩))) ∧
    (∀ (p : Pipeline) (ai : Option Int) (row : ConceptRow) (l r : ConstraintVertex),
      DataConstraint.of p (.is_ l r) ai row = .ok (some (.is_
        ⟨.is_ l r, ai, resolve_constraint_vertex p l row,
          resolve_constraint_vertex p r row⟩))) ∧
    (∀ (p : Pipeline) (ai : Option Int) (row : ConceptRow)
        (vr : ConstraintVertex) (iv : String),
      DataConstraint.of p (.iid vr iv) ai row = .ok (some (.iid
        ⟨.iid vr iv, ai, resolve_constraint_vertex p vr row, iv⟩))) ∧
    (∀ (p : Pipeline) (ai : Option Int) (row : ConceptRow)
        (l r : ConstraintVertex) (cm : Comparator),
      DataConstraint.of p (.comparison l r cm) ai row = .ok (some (.comparison
        ⟨.comparison l r cm, ai, resolve_constraint_vertex p l row,
          resolve_constraint_vertex p r row, cm⟩))) ∧
    (∀ (p : Pipeline) (ai : Option Int) (row : ConceptRow)
        (ke : KindEnum) (t : ConstraintVertex),
      DataConstraint.of p (.kind ke t) ai row = .ok (some (.kind
        ⟨.kind ke t, ai, ke, resolve_constraint_vertex p t row⟩))) ∧
    (∀ (p : Pipeline) (ai : Option Int) (row : ConceptRow)
        (vr : ConstraintVertex) (lv : String),
      DataConstraint.of p (.label vr lv) ai row = .ok (some (.label
        ⟨.label vr lv, ai, resolve_constraint_vertex p vr row, lv⟩))) ∧
    (∀ (p : Pipeline) (ai : Option Int) (row : ConceptRow)
        (at_ : ConstraintVertex) (vt : String),
      DataConstraint.of p (.value at_ vt) ai row = .ok (some (.value
        ⟨.value at_ vt, ai, resolve_constraint_vertex p at_ row, vt⟩))) := by
  refine ⟨?_, ?_, ?_, ?_, ?_, ?_, ?_, ?_, ?_, ?_, ?_, ?_, ?_, ?_, ?_⟩ <;>
    intros <;> rfl

end TypeDBGraphUtils
